import Mathlib

/-!
Shallow embedding of the facecastify core: the Gemini batch request
orchestrator (`GeminiService.generateFacecast` / `generateFacecastBatch`),
the credential store (`setApiKey` / `addApiKeyListener`), and the archive
builder plus handoff (`GlowficUploadService.createAndDownloadZip` /
`launchGlowficApp`).

External collaborators (the network `fetch`, the host's `atob` base64
decoder, `encodeURIComponent`, and `window.location` navigation) are
modelled as explicit function parameters; per-call outcomes of the remote
endpoint are indexed by item position so that distinct calls may receive
distinct responses.  JavaScript truthiness on optional strings is modelled
by `isTruthy` (both `null`/`undefined` and the empty string are falsy).
-/

namespace Facecastify

deriving instance DecidableEq for Except

/-- JavaScript truthiness of an optional string: absent and `""` are falsy. -/
def isTruthy (o : Option String) : Bool :=
  o.getD "" != ""

/-- One `inlineData` content part of a Gemini response. -/
structure InlineData where
  data : String
  mimeType : String
deriving DecidableEq, Repr

/-- One content part of a Gemini response candidate: an inline image
and/or a text fragment (the TS code tests `part.inlineData` first, then
`part.text`). -/
structure Part where
  inlineData : Option InlineData
  text : Option String
deriving DecidableEq, Repr

/-- One response candidate; `content` may be absent, and when present it
carries a list of parts. -/
structure Candidate where
  content : Option (List Part)
deriving DecidableEq, Repr

/-- The decoded JSON body of a successful Gemini API response. -/
structure ApiResult where
  candidates : List Candidate
deriving DecidableEq, Repr

/-- `GeminiResponse` from the service: optional image data URL and
optional text response. -/
structure GeminiResponse where
  imageData : Option String
  textResponse : Option String
deriving DecidableEq, Repr

/-- The request the service sends: the base64 payload extracted from the
reference image data URL (absent when the data URL has no comma), the
substituted prompt, and the API key used in the request URL. -/
structure GenRequest where
  imageBase64 : Option String
  prompt : String
  apiKey : String
deriving DecidableEq, Repr

/-- Per-item result of the batch: `{ expression, imageData?, error? }`. -/
structure FacecastResult where
  expression : String
  imageData : Option String
  error : Option String
deriving DecidableEq, Repr

/-- Message thrown by `generateFacecast` when `!this.apiKey`. -/
def missingKeyMsg : String :=
  "No Gemini API key available. Please provide an API key."

/-- Message thrown by `generateFacecast` when the response has neither
image nor text content. -/
def noContentMsg : String :=
  "No content found in Gemini response"

/-- Replace the first occurrence of `pat` in `s` by `repl`, as the
JavaScript `String.prototype.replace` with a string pattern does (the
`$`-substitution patterns of JS replacement strings are not modelled;
no claim depends on them). -/
def replaceFirst (s pat repl : String) : String :=
  match s.splitOn pat with
  | [] => s
  | [_] => s
  | a :: rest => a ++ repl ++ String.intercalate pat rest

/-- The default prompt of `generateFacecast`. -/
def defaultPrompt (expression : String) : String :=
  "Make the character in the reference image have the following expression: "
    ++ expression
    ++ ". Focus on the face and upper shoulders only, but otherwise try to replicate the reference image (colors, clothes, theme, age, setting) as closely as possible."

/-- Prompt selection: a custom prompt has its placeholder token
substituted by the expression, otherwise the default prompt is used. -/
def mkPrompt (customPrompt : Option String) (expression : String) : String :=
  match customPrompt with
  | some p => replaceFirst p "\x7bexpression\x7d" expression
  | none => defaultPrompt expression

/-- Folding one part into the accumulated `GeminiResponse`, mirroring the
`for (const part of candidate.content.parts)` loop: an `inlineData` part
overwrites `imageData` with a data URL, otherwise a `text` part overwrites
`textResponse`. -/
def applyPart (g : GeminiResponse) (p : Part) : GeminiResponse :=
  match p.inlineData with
  | some d => { g with imageData := some ("data:" ++ d.mimeType ++ ";base64," ++ d.data) }
  | none =>
    match p.text with
    | some t => { g with textResponse := some t }
    | none => g

/-- Extraction of the `GeminiResponse` from the decoded JSON: only the
first candidate is inspected, and only when it carries content parts. -/
def extractResponse (r : ApiResult) : GeminiResponse :=
  match r.candidates with
  | [] => { imageData := none, textResponse := none }
  | c :: _ =>
    match c.content with
    | none => { imageData := none, textResponse := none }
    | some parts => parts.foldl applyPart { imageData := none, textResponse := none }

/-- `GeminiService.generateFacecast`: throws `missingKeyMsg` when the key
is falsy, otherwise builds the request (base64 payload is the second
comma-separated component of the reference data URL, as `split(',')[1]`),
performs the network call (`net`; a thrown transport error or non-ok
status is its `.error`), and accepts the response only when it contains
image or text content. -/
def generateFacecast (apiKey : Option String) (net : GenRequest → Except String ApiResult)
    (referenceImageData : String) (expression : String) (customPrompt : Option String) :
    Except String GeminiResponse :=
  if isTruthy apiKey then
    let base64Data := (referenceImageData.splitOn ",").get? 1
    let prompt := mkPrompt customPrompt expression
    match net { imageBase64 := base64Data, prompt := prompt, apiKey := apiKey.getD "" } with
    | .error e => .error e
    | .ok result =>
      let g := extractResponse result
      if g.imageData.isNone && g.textResponse.isNone then .error noContentMsg
      else .ok g
  else
    .error missingKeyMsg

/-- The settled outcome of one batch item: the `.then` branch keeps the
response's (possibly absent) `imageData` with no error, the `.catch`
branch records the error message with no image.  `net i` is the remote
endpoint's behaviour for the call issued for item `i`. -/
def settleItem (apiKey : Option String) (net : Nat → GenRequest → Except String ApiResult)
    (referenceImageData : String) (customPrompt : Option String)
    (i : Nat) (expression : String) : FacecastResult :=
  match generateFacecast apiKey (net i) referenceImageData expression customPrompt with
  | .ok resp => { expression := expression, imageData := resp.imageData, error := none }
  | .error msg => { expression := expression, imageData := none, error := some msg }

/-- Map with the absolute item index, mirroring the inner
`for (let j = 0; j < batchSize; j++)` loop that reads `expressions[i+j]`. -/
def mapWithIndex (f : Nat → α → β) : Nat → List α → List β
  | _, [] => []
  | i, a :: t => f i a :: mapWithIndex f (i + 1) t

/-- Observable scheduling events of a batch run: dispatching the call for
item `i`, that call settling, and the fixed inter-chunk pause (the
`setTimeout(resolve, 1000)` between batches). -/
inductive Ev where
  | dispatch (i : Nat)
  | settle (i : Nat)
  | pause
deriving DecidableEq, Repr

/-- The chunked batch loop `for (let i = 0; i < n; i += concurrencyLimit)`
of `generateFacecastBatch`, with an explicit fuel (`expressions.length`
suffices whenever `concurrencyLimit ≥ 1`).  Arguments of the recursion:
chunk number `b`, absolute start index `i`, fuel, remaining expressions.
Returns the accumulated results (in submission order, as `Promise.all`
joins them) together with the event trace; within a chunk the settle
order is given by the environment's completion schedule `complete`
(a reordering of the dispatched indices), which the results never depend
on. -/
def runBatchAux (apiKey : Option String) (net : Nat → GenRequest → Except String ApiResult)
    (referenceImageData : String) (customPrompt : Option String)
    (concurrencyLimit : Nat) (complete : Nat → List Nat → List Nat) :
    Nat → Nat → Nat → List String → List FacecastResult × List Ev
  | _, _, _, [] => ([], [])
  | _, _, 0, _ :: _ => ([], [])
  | b, i, fuel + 1, e :: rest' =>
    let l := e :: rest'
    let chunk := l.take concurrencyLimit
    let rest := l.drop concurrencyLimit
    let chunkResults := mapWithIndex (settleItem apiKey net referenceImageData customPrompt) i chunk
    let idxs := List.range' i chunk.length
    let tail := runBatchAux apiKey net referenceImageData customPrompt concurrencyLimit complete
      (b + 1) (i + concurrencyLimit) fuel rest
    (chunkResults ++ tail.fst,
      idxs.map Ev.dispatch ++ (complete b idxs).map Ev.settle ++
        (if rest.isEmpty then [] else [Ev.pause]) ++ tail.snd)

/-- `GeminiService.generateFacecastBatch`: the per-item `.catch` hands
every failure back as a per-item result, so the returned promise always
resolves with the result list (the surrounding try/catch re-throws, which
is the identity on an already-resolved computation). -/
def generateFacecastBatch (apiKey : Option String)
    (net : Nat → GenRequest → Except String ApiResult)
    (complete : Nat → List Nat → List Nat)
    (referenceImageData : String) (expressions : List String)
    (concurrencyLimit : Nat) (customPrompt : Option String) :
    Except String (List FacecastResult) :=
  Except.ok (runBatchAux apiKey net referenceImageData customPrompt concurrencyLimit complete
    0 0 expressions.length expressions).fst

/-- The event trace of a batch run. -/
def batchTrace (apiKey : Option String)
    (net : Nat → GenRequest → Except String ApiResult)
    (complete : Nat → List Nat → List Nat)
    (referenceImageData : String) (expressions : List String)
    (concurrencyLimit : Nat) (customPrompt : Option String) : List Ev :=
  (runBatchAux apiKey net referenceImageData customPrompt concurrencyLimit complete
    0 0 expressions.length expressions).snd

/-- Consecutive chunks of size `k` (fuelled; fuel `l.length` suffices for
`k ≥ 1`), the chunk decomposition performed by the batch loop. -/
def chunksOfAux (k : Nat) : Nat → List α → List (List α)
  | _, [] => []
  | 0, _ :: _ => []
  | fuel + 1, a :: t => (a :: t).take k :: chunksOfAux k fuel ((a :: t).drop k)

/-- Consecutive chunks of size `k` of a list (last chunk possibly
smaller), as produced by the loop of `generateFacecastBatch`. -/
def chunksOf (k : Nat) (l : List α) : List (List α) :=
  chunksOfAux k l.length l

/-- Events of one chunk: all its calls are dispatched (in index order),
then all of them settle (in the completion schedule's order). -/
def blockEvents (complete : Nat → List Nat → List Nat) (b i len : Nat) : List Ev :=
  (List.range' i len).map Ev.dispatch ++ (complete b (List.range' i len)).map Ev.settle

/-- The reference trace shape: chunk blocks in order, separated by a
single pause, with no pause after the final chunk. -/
def blocksTrace (complete : Nat → List Nat → List Nat) : Nat → Nat → List (List String) → List Ev
  | _, _, [] => []
  | b, i, [c] => blockEvents complete b i c.length
  | b, i, c :: c' :: cs =>
    blockEvents complete b i c.length ++ [Ev.pause] ++
      blocksTrace complete (b + 1) (i + c.length) (c' :: cs)

/-- Iteration count of the loop `for (let i = 0; i < n; i += k)` of
`generateFacecastBatch`, with explicit fuel: `some m` means the loop
reaches its exit condition within the fuel after `m` iterations, `none`
means it does not.  Each iteration advances by `k` positions, i.e. drops
`k` leading elements of the remaining list. -/
def loopIters (k : Nat) : Nat → List String → Option Nat
  | _, [] => some 0
  | 0, _ :: _ => none
  | fuel + 1, a :: t => (loopIters k fuel ((a :: t).drop k)).map (· + 1)

/-! ### Archive builder (`GlowficUploadService.createAndDownloadZip`) -/

/-- The character class of the JavaScript regex `\s` (ECMAScript
WhiteSpace and LineTerminator). -/
def isJsSpace (c : Char) : Bool :=
  c == ' ' || c == '\t' || c == '\n' || c == '\x0b' || c == '\x0c' || c == '\r' ||
  c == '\u00A0' || c == '\u1680' ||
  (decide ('\u2000' ≤ c) && decide (c ≤ '\u200A')) ||
  c == '\u2028' || c == '\u2029' || c == '\u202F' || c == '\u205F' ||
  c == '\u3000' || c == '\uFEFF'

/-- Characters kept by `.replace(/[^a-zA-Z0-9\s-]/g, '')`. -/
def isSafeChar (c : Char) : Bool :=
  decide ('a' ≤ c ∧ c ≤ 'z') || decide ('A' ≤ c ∧ c ≤ 'Z') ||
  decide ('0' ≤ c ∧ c ≤ '9') || isJsSpace c || c == '-'

/-- `.replace(/\s+/g, '-')`: each maximal run of whitespace becomes one
hyphen.  The Boolean flag records whether the scanner is inside a run. -/
def collapseWsAux : Bool → List Char → List Char
  | _, [] => []
  | inRun, c :: t =>
    if isJsSpace c then
      if inRun then collapseWsAux true t else '-' :: collapseWsAux true t
    else c :: collapseWsAux false t

/-- `String.prototype.toLowerCase` on the ASCII range: `A`–`Z` map to
`a`–`z`, everything else in the normalized label's character set
(ASCII letters, digits, hyphen) is fixed.  (The full Unicode lowercase
mapping is not modelled; after stripping and whitespace collapsing only
these characters remain.) -/
def jsToLower (c : Char) : Char :=
  if 65 ≤ c.toNat ∧ c.toNat ≤ 90 then Char.ofNat (c.toNat + 32) else c

/-- The normalized label: strip unsafe characters, collapse whitespace
runs to single hyphens, lowercase — in that order, as the TS chain
`replace(...).replace(...).toLowerCase()`. -/
def safeExpression (s : String) : String :=
  String.mk ((collapseWsAux false (s.data.filter isSafeChar)).map jsToLower)

/-- The archive entry name derived from an expression label. -/
def zipFilename (expression : String) : String :=
  "facecast-" ++ safeExpression expression ++ ".png"

/-- `imageData.split(',')[1]` followed by `atob` and the `charCodeAt`
loop: the host decoder `atob` is modelled as a partial function giving
the byte values directly (`none` models the `InvalidCharacterError` it
throws on invalid base64); a data URL without a comma passes the string
`"undefined"` to `atob`, as the Web IDL coercion of `undefined` does. -/
def decodePayload (atob : String → Option (List Nat)) (imageData : String) : Option (List Nat) :=
  match (imageData.data.splitOn ',').get? 1 with
  | some b64 => atob (String.mk b64)
  | none => atob "undefined"

/-- `zip.file(name, bytes)` on the JSZip file map: re-adding an existing
name overwrites its content in place (JavaScript object keys keep their
first-insertion order), a fresh name is appended. -/
def upsert (zip : List (String × List Nat)) (name : String) (bytes : List Nat) :
    List (String × List Nat) :=
  match zip with
  | [] => [(name, bytes)]
  | e :: t => if e.fst = name then (name, bytes) :: t else e :: upsert t name bytes

/-- The `for (const result of successfulResults)` loop: decode each
payload and add the entry under the derived filename; a decoder failure
propagates out of the whole zip step. -/
def addEntries (atob : String → Option (List Nat)) (zip : List (String × List Nat)) :
    List FacecastResult → Except String (List (String × List Nat))
  | [] => .ok zip
  | r :: t =>
    match decodePayload atob (r.imageData.getD "") with
    | none => .error "InvalidCharacterError"
    | some bytes => addEntries atob (upsert zip (zipFilename r.expression) bytes) t

/-- `createAndDownloadZip` up to the produced entry map: filter to the
truthy `imageData` results, throw when none remain, otherwise build the
archive entries.  (Blob generation, the `<a>` click download and blob URL
revocation are host side effects carrying no further decision logic.) -/
def createAndDownloadZip (atob : String → Option (List Nat)) (results : List FacecastResult) :
    Except String (List (String × List Nat)) :=
  let successfulResults := results.filter (fun r => isTruthy r.imageData)
  if successfulResults.isEmpty then .error "No successful facecasts to zip"
  else addEntries atob [] successfulResults

/-! ### Handoff (`GlowficUploadService.launchGlowficApp`) -/

/-- Terminal outcome of the launch step: either the navigation to the
custom-scheme URL was performed, or the fallback instructions were shown. -/
inductive LaunchOutcome where
  | navigated (url : String)
  | fallback (message : String)
deriving DecidableEq, Repr

/-- The custom-scheme launch URL built from the encoded path. -/
def launchUrlOf (encodedPath : String) : String :=
  "glowficgirlichgallery://upload?file=" ++ encodedPath

/-- The alert text of the catch branch (the template literal, trimmed). -/
def fallbackMessage (zipPath : String) : String :=
  ("\nCould not auto-launch Glowfic Gallery Manager.\nPlease run manually:\n\n./glowfic_scraper.py --gui\n\nThen drag the downloaded zip file: "
    ++ zipPath ++ "\n      ").trim

/-- `launchGlowficApp`: build the launch URL from the URI-encoded path and
navigate to it; any failure of `encodeURIComponent` (it throws `URIError`
on lone surrogates) or of the navigation is caught, and only the fallback
alert is surfaced — the promise always resolves. -/
def launchGlowficApp (encodeURIComponent : String → Except String String)
    (navigate : String → Except String Unit) (zipPath : String) :
    Except String LaunchOutcome :=
  match encodeURIComponent zipPath with
  | .error _ => .ok (.fallback (fallbackMessage zipPath))
  | .ok encodedPath =>
    match navigate (launchUrlOf encodedPath) with
    | .error _ => .ok (.fallback (fallbackMessage zipPath))
    | .ok _ => .ok (.navigated (launchUrlOf encodedPath))

/-! ### Credential store (`GeminiService` API-key state and listeners) -/

/-- The mutable state of `GeminiService`: the current key, the registered
listeners (identified by registration number; the TS list holds the
listener closures themselves and removal compares function identity), and
the next fresh registration number. -/
structure ServiceState where
  apiKey : Option String
  listeners : List Nat
  nextId : Nat
deriving DecidableEq, Repr

/-- `hasApiKey`: `!!this.apiKey` — truthiness of the stored key. -/
def hasApiKey (s : ServiceState) : Bool :=
  isTruthy s.apiKey

/-- `setApiKey`: store the key (persisting it to `localStorage` is a host
side effect) and synchronously notify every registered listener once with
the new presence state; the returned list is the notification log of this
call, in listener registration order. -/
def setApiKey (s : ServiceState) (key : String) : ServiceState × List (Nat × Bool) :=
  let s' : ServiceState := { s with apiKey := some key }
  (s', s'.listeners.map (fun id => (id, hasApiKey s')))

/-- `addApiKeyListener`: register the listener, invoke it immediately once
with the current presence state, and hand back its identity (the TS code
returns the corresponding unsubscribe closure).  Result: new state, the
new listener's identity, and the notification log of the call. -/
def addApiKeyListener (s : ServiceState) : ServiceState × Nat × List (Nat × Bool) :=
  let id := s.nextId
  let s' : ServiceState := { s with listeners := s.listeners ++ [id], nextId := id + 1 }
  (s', id, [(id, hasApiKey s')])

/-- The unsubscribe closure returned by `addApiKeyListener`:
`this.apiKeyListeners.filter(l => l !== listener)`. -/
def removeApiKeyListener (s : ServiceState) (id : Nat) : ServiceState :=
  { s with listeners := s.listeners.filter (fun x => x != id) }

/-! ### List-level lemmas about the batch loop -/

theorem mapWithIndex_length (f : Nat → α → β) (i : Nat) (l : List α) :
    (mapWithIndex f i l).length = l.length := by
  induction l generalizing i with
  | nil => rfl
  | cons a t ih => simp [mapWithIndex, ih]

theorem mapWithIndex_take_drop (f : Nat → α → β) (i k : Nat) (l : List α) :
    mapWithIndex f i (l.take k) ++ mapWithIndex f (i + k) (l.drop k) = mapWithIndex f i l := by
  induction l generalizing i k with
  | nil => simp [mapWithIndex]
  | cons a t ih =>
    cases k with
    | zero => simp [mapWithIndex]
    | succ k =>
      simp only [List.take_succ_cons, List.drop_succ_cons, mapWithIndex, List.cons_append]
      have hik : i + (k + 1) = (i + 1) + k := by omega
      rw [hik, ih]

theorem mapWithIndex_get (f : Nat → α → β) (s : Nat) (l : List α) (j : Nat)
    (h1 : j < (mapWithIndex f s l).length) (h2 : j < l.length) :
    (mapWithIndex f s l).get ⟨j, h1⟩ = f (s + j) (l.get ⟨j, h2⟩) := by
  induction l generalizing s j with
  | nil => cases h2
  | cons a t ih =>
    cases j with
    | zero => rfl
    | succ j =>
      have h1' : j < (mapWithIndex f (s + 1) t).length := by
        simpa [mapWithIndex, Nat.succ_lt_succ_iff] using h1
      have h2' : j < t.length := Nat.lt_of_succ_lt_succ h2
      have : (mapWithIndex f s (a :: t)).get ⟨j + 1, h1⟩
          = (mapWithIndex f (s + 1) t).get ⟨j, h1'⟩ := rfl
      rw [this, ih (s + 1) j h1' h2']
      have : s + 1 + j = s + (j + 1) := by omega
      rw [this]
      rfl

theorem mem_mapWithIndex {f : Nat → α → β} {b : β} :
    ∀ {s : Nat} {l : List α}, b ∈ mapWithIndex f s l → ∃ j a, a ∈ l ∧ b = f j a := by
  intro s l
  induction l generalizing s with
  | nil => intro hb; cases hb
  | cons a t ih =>
    intro hb
    rcases List.mem_cons.mp hb with h | h
    · exact ⟨s, a, List.mem_cons_self a t, h⟩
    · rcases ih h with ⟨j, a', ha', hb'⟩
      exact ⟨j, a', List.mem_cons_of_mem a ha', hb'⟩

theorem mapWithIndex_congr {f g : Nat → α → β} (h : ∀ i a, f i a = g i a) :
    ∀ (s : Nat) (l : List α), mapWithIndex f s l = mapWithIndex g s l := by
  intro s l
  induction l generalizing s with
  | nil => rfl
  | cons a t ih => simp [mapWithIndex, h, ih]

theorem settleItem_expression (apiKey : Option String)
    (net : Nat → GenRequest → Except String ApiResult)
    (ref : String) (custom : Option String) (i : Nat) (e : String) :
    (settleItem apiKey net ref custom i e).expression = e := by
  unfold settleItem
  cases generateFacecast apiKey (net i) ref e custom <;> rfl

theorem settleItem_noKey (net : Nat → GenRequest → Except String ApiResult)
    (ref : String) (custom : Option String) (i : Nat) (e : String) :
    settleItem none net ref custom i e
      = { expression := e, imageData := none, error := some missingKeyMsg } := rfl

theorem runBatchAux_fst (apiKey : Option String)
    (net : Nat → GenRequest → Except String ApiResult)
    (ref : String) (custom : Option String) (k : Nat)
    (complete : Nat → List Nat → List Nat) (hk : 1 ≤ k) :
    ∀ (fuel : Nat) (l : List String) (b i : Nat), l.length ≤ fuel →
      (runBatchAux apiKey net ref custom k complete b i fuel l).fst
        = mapWithIndex (settleItem apiKey net ref custom) i l := by
  intro fuel
  induction fuel with
  | zero =>
    intro l b i hl
    cases l with
    | nil => rfl
    | cons e t => simp at hl
  | succ fuel ih =>
    intro l b i hl
    cases l with
    | nil => rfl
    | cons e t =>
      simp only [runBatchAux]
      have hd : (List.drop k (e :: t)).length ≤ fuel := by
        simp only [List.length_drop, List.length_cons]
        simp only [List.length_cons] at hl
        omega
      rw [ih (List.drop k (e :: t)) (b + 1) (i + k) hd]
      exact mapWithIndex_take_drop _ i k (e :: t)

theorem settleItem_fields (apiKey : Option String)
    (net : Nat → GenRequest → Except String ApiResult)
    (ref : String) (custom : Option String) (i : Nat) (e : String) :
    (settleItem apiKey net ref custom i e).imageData = none ∨
      (settleItem apiKey net ref custom i e).error = none := by
  cases hgen : generateFacecast apiKey (net i) ref e custom with
  | error m => exact Or.inl (by simp [settleItem, hgen])
  | ok r => exact Or.inr (by simp [settleItem, hgen])

/-! ### Claim theorems: the batch orchestrator -/

/-- C1: for every reference artifact, prompt template, non-empty item
list and concurrency limit ≥ 1, the batch resolves with a result list of
the same length whose i-th entry carries the i-th input label, and the
result is independent of the completion schedule of the individual
remote calls. -/
theorem batchRun_length_and_labels
    (apiKey : Option String) (net : Nat → GenRequest → Except String ApiResult)
    (complete : Nat → List Nat → List Nat)
    (referenceImageData : String) (customPrompt : Option String)
    (expressions : List String) (concurrencyLimit : Nat)
    (hk : 1 ≤ concurrencyLimit) (hne : expressions ≠ []) :
    ∃ results : List FacecastResult,
      generateFacecastBatch apiKey net complete referenceImageData expressions
          concurrencyLimit customPrompt = Except.ok results ∧
      results.length = expressions.length ∧
      (∀ (i : Nat) (h1 : i < results.length) (h2 : i < expressions.length),
        (results.get ⟨i, h1⟩).expression = expressions.get ⟨i, h2⟩) ∧
      (∀ complete2 : Nat → List Nat → List Nat,
        generateFacecastBatch apiKey net complete2 referenceImageData expressions
            concurrencyLimit customPrompt = Except.ok results) := by
  refine ⟨mapWithIndex (settleItem apiKey net referenceImageData customPrompt) 0 expressions,
    ?_, mapWithIndex_length _ _ _, ?_, ?_⟩
  · unfold generateFacecastBatch
    rw [runBatchAux_fst apiKey net _ _ _ complete hk expressions.length expressions 0 0 le_rfl]
  · intro i h1 h2
    rw [mapWithIndex_get _ 0 _ i h1 h2, Nat.zero_add, settleItem_expression]
  · intro complete2
    unfold generateFacecastBatch
    rw [runBatchAux_fst apiKey net _ _ _ complete2 hk expressions.length expressions 0 0 le_rfl]

theorem batchRun_length_and_labels_witness :
    ∃ results : List FacecastResult,
      generateFacecastBatch (some "key") (fun _ _ => Except.error "down")
          (fun _ idxs => idxs) "img" ["happy", "sad"] 1 none = Except.ok results ∧
      results.length = (["happy", "sad"] : List String).length ∧
      (∀ (i : Nat) (h1 : i < results.length) (h2 : i < (["happy", "sad"] : List String).length),
        (results.get ⟨i, h1⟩).expression = (["happy", "sad"] : List String).get ⟨i, h2⟩) ∧
      (∀ complete2 : Nat → List Nat → List Nat,
        generateFacecastBatch (some "key") (fun _ _ => Except.error "down")
            complete2 "img" ["happy", "sad"] 1 none = Except.ok results) :=
  batchRun_length_and_labels (some "key") (fun _ _ => Except.error "down")
    (fun _ idxs => idxs) "img" none ["happy", "sad"] 1 (by decide) (by decide)

/-- C2 counterexample: with no credential configured, the batch does not
fail; it resolves normally with the missing-credential message recorded
in the per-item result. -/
theorem missingCredential_no_failfast_cex :
    generateFacecastBatch none (fun _ _ => Except.ok { candidates := [] })
        (fun _ idxs => idxs) "img" ["happy"] 1 none
      = Except.ok [{ expression := "happy", imageData := none, error := some missingKeyMsg }] := by
  rfl

/-- C2 (amended): if no credential is configured, a batch run issues no
network call (the outcome is independent of the remote endpoint) and each
per-item call fails fast with the `MissingCredential` message; the run
itself resolves normally with that message recorded in every result and
no payload, rather than propagating an error to the caller. -/
theorem missingCredential_per_item
    (net : Nat → GenRequest → Except String ApiResult)
    (complete : Nat → List Nat → List Nat)
    (referenceImageData : String) (customPrompt : Option String)
    (expressions : List String) (concurrencyLimit : Nat) (hk : 1 ≤ concurrencyLimit) :
    ∃ results : List FacecastResult,
      generateFacecastBatch none net complete referenceImageData expressions
          concurrencyLimit customPrompt = Except.ok results ∧
      results.length = expressions.length ∧
      (∀ r ∈ results, r.imageData = none ∧ r.error = some missingKeyMsg) ∧
      (∀ net2 : Nat → GenRequest → Except String ApiResult,
        generateFacecastBatch none net2 complete referenceImageData expressions
            concurrencyLimit customPrompt = Except.ok results) := by
  refine ⟨mapWithIndex (settleItem none net referenceImageData customPrompt) 0 expressions,
    ?_, mapWithIndex_length _ _ _, ?_, ?_⟩
  · unfold generateFacecastBatch
    rw [runBatchAux_fst none net _ _ _ complete hk expressions.length expressions 0 0 le_rfl]
  · intro r hr
    rcases mem_mapWithIndex hr with ⟨j, a, ha, rfl⟩
    rw [settleItem_noKey]
    exact ⟨rfl, rfl⟩
  · intro net2
    unfold generateFacecastBatch
    rw [runBatchAux_fst none net2 _ _ _ complete hk expressions.length expressions 0 0 le_rfl]
    exact congrArg Except.ok
      (mapWithIndex_congr (fun i a => by rw [settleItem_noKey, settleItem_noKey]) 0 expressions)

theorem missingCredential_per_item_witness :
    ∃ results : List FacecastResult,
      generateFacecastBatch none (fun _ _ => Except.ok { candidates := [] })
          (fun _ idxs => idxs) "img" ["happy"] 1 none = Except.ok results ∧
      results.length = (["happy"] : List String).length ∧
      (∀ r ∈ results, r.imageData = none ∧ r.error = some missingKeyMsg) ∧
      (∀ net2 : Nat → GenRequest → Except String ApiResult,
        generateFacecastBatch none net2 (fun _ idxs => idxs) "img" ["happy"] 1 none
          = Except.ok results) :=
  missingCredential_per_item (fun _ _ => Except.ok { candidates := [] })
    (fun _ idxs => idxs) "img" none ["happy"] 1 (by decide)

/-- C3 counterexample: a remote response accepted as a success that
contains only a text part yields a completed result with neither payload
nor error message, refuting the exactly-one-field invariant. -/
theorem textOnly_success_neither_field_cex :
    generateFacecastBatch (some "key")
        (fun _ _ => Except.ok
          { candidates := [{ content := some [{ inlineData := none, text := some "just text" }] }] })
        (fun _ idxs => idxs) "img" ["happy"] 1 none
      = Except.ok [{ expression := "happy", imageData := none, error := none }] := by
  rfl

/-- C3 (amended): a completed result never has both payload and error
message set; a failed call yields the error message and no payload, a
successful call yields no error message and the response's optional
image payload — which is absent when the accepted response contains only
a text part, leaving both fields unset.  Each result is determined by its
own item's call (`settleItem` at its own index), so other items are
unaffected. -/
theorem result_field_discipline
    (apiKey : Option String) (net : Nat → GenRequest → Except String ApiResult)
    (complete : Nat → List Nat → List Nat)
    (referenceImageData : String) (customPrompt : Option String)
    (expressions : List String) (concurrencyLimit : Nat) (hk : 1 ≤ concurrencyLimit) :
    ∃ results : List FacecastResult,
      generateFacecastBatch apiKey net complete referenceImageData expressions
          concurrencyLimit customPrompt = Except.ok results ∧
      results.length = expressions.length ∧
      (∀ (i : Nat) (h1 : i < results.length) (h2 : i < expressions.length),
        results.get ⟨i, h1⟩
          = settleItem apiKey net referenceImageData customPrompt i (expressions.get ⟨i, h2⟩)) ∧
      (∀ r ∈ results, r.imageData = none ∨ r.error = none) ∧
      (∀ (i : Nat) (h1 : i < results.length) (h2 : i < expressions.length) (msg : String),
        generateFacecast apiKey (net i) referenceImageData (expressions.get ⟨i, h2⟩) customPrompt
            = Except.error msg →
          (results.get ⟨i, h1⟩).error = some msg ∧ (results.get ⟨i, h1⟩).imageData = none) ∧
      (∀ (i : Nat) (h1 : i < results.length) (h2 : i < expressions.length)
          (resp : GeminiResponse),
        generateFacecast apiKey (net i) referenceImageData (expressions.get ⟨i, h2⟩) customPrompt
            = Except.ok resp →
          (results.get ⟨i, h1⟩).error = none ∧
            (results.get ⟨i, h1⟩).imageData = resp.imageData) := by
  refine ⟨mapWithIndex (settleItem apiKey net referenceImageData customPrompt) 0 expressions,
    ?_, mapWithIndex_length _ _ _, ?_, ?_, ?_, ?_⟩
  · unfold generateFacecastBatch
    rw [runBatchAux_fst apiKey net _ _ _ complete hk expressions.length expressions 0 0 le_rfl]
  · intro i h1 h2
    rw [mapWithIndex_get _ 0 _ i h1 h2, Nat.zero_add]
  · intro r hr
    rcases mem_mapWithIndex hr with ⟨j, a, ha, rfl⟩
    exact settleItem_fields apiKey net referenceImageData customPrompt j a
  · intro i h1 h2 msg hgen
    rw [mapWithIndex_get _ 0 _ i h1 h2, Nat.zero_add]
    simp only [List.get_eq_getElem] at hgen
    constructor <;> simp [settleItem, hgen]
  · intro i h1 h2 resp hgen
    rw [mapWithIndex_get _ 0 _ i h1 h2, Nat.zero_add]
    simp only [List.get_eq_getElem] at hgen
    constructor <;> simp [settleItem, hgen]

theorem result_field_discipline_witness :
    ∃ results : List FacecastResult,
      generateFacecastBatch (some "key")
          (fun _ _ => Except.ok
            { candidates := [{ content := some [{ inlineData := none, text := some "t" }] }] })
          (fun _ idxs => idxs) "img" ["happy"] 1 none = Except.ok results ∧
      results.length = (["happy"] : List String).length ∧
      (∀ (i : Nat) (h1 : i < results.length) (h2 : i < (["happy"] : List String).length),
        results.get ⟨i, h1⟩
          = settleItem (some "key")
              (fun _ _ => Except.ok
                { candidates := [{ content := some [{ inlineData := none, text := some "t" }] }] })
              "img" none i ((["happy"] : List String).get ⟨i, h2⟩)) ∧
      (∀ r ∈ results, r.imageData = none ∨ r.error = none) ∧
      (∀ (i : Nat) (h1 : i < results.length) (h2 : i < (["happy"] : List String).length)
          (msg : String),
        generateFacecast (some "key")
            ((fun (_ : Nat) (_ : GenRequest) => Except.ok
              { candidates := [{ content := some [{ inlineData := none, text := some "t" }] }] }) i)
            "img" ((["happy"] : List String).get ⟨i, h2⟩) none = Except.error msg →
          (results.get ⟨i, h1⟩).error = some msg ∧ (results.get ⟨i, h1⟩).imageData = none) ∧
      (∀ (i : Nat) (h1 : i < results.length) (h2 : i < (["happy"] : List String).length)
          (resp : GeminiResponse),
        generateFacecast (some "key")
            ((fun (_ : Nat) (_ : GenRequest) => Except.ok
              { candidates := [{ content := some [{ inlineData := none, text := some "t" }] }] }) i)
            "img" ((["happy"] : List String).get ⟨i, h2⟩) none = Except.ok resp →
          (results.get ⟨i, h1⟩).error = none ∧
            (results.get ⟨i, h1⟩).imageData = resp.imageData) :=
  result_field_discipline (some "key")
    (fun _ _ => Except.ok
      { candidates := [{ content := some [{ inlineData := none, text := some "t" }] }] })
    (fun _ idxs => idxs) "img" none ["happy"] 1 (by decide)

/-! ### Chunk decomposition and trace lemmas -/

theorem chunksOfAux_fuel {α : Type} (k : Nat) (hk : 1 ≤ k) :
    ∀ (fuel1 fuel2 : Nat) (l : List α), l.length ≤ fuel1 → l.length ≤ fuel2 →
      chunksOfAux k fuel1 l = chunksOfAux k fuel2 l := by
  intro fuel1
  induction fuel1 with
  | zero =>
    intro fuel2 l h1 h2
    cases l with
    | nil => cases fuel2 <;> rfl
    | cons a t => simp at h1
  | succ fuel ih =>
    intro fuel2 l h1 h2
    cases l with
    | nil => cases fuel2 <;> rfl
    | cons a t =>
      cases fuel2 with
      | zero => simp at h2
      | succ fuel2 =>
        simp only [chunksOfAux]
        congr 1
        apply ih
        · simp only [List.length_drop, List.length_cons]
          simp only [List.length_cons] at h1
          omega
        · simp only [List.length_drop, List.length_cons]
          simp only [List.length_cons] at h2
          omega

theorem chunksOfAux_eq_chunksOf {α : Type} (k : Nat) (hk : 1 ≤ k) (fuel : Nat) (l : List α)
    (h : l.length ≤ fuel) : chunksOfAux k fuel l = chunksOf k l :=
  chunksOfAux_fuel k hk fuel l.length l h le_rfl

theorem chunksOf_cons {α : Type} (k : Nat) (hk : 1 ≤ k) (a : α) (t : List α) :
    chunksOf k (a :: t) = (a :: t).take k :: chunksOf k ((a :: t).drop k) := by
  unfold chunksOf
  simp only [List.length_cons, chunksOfAux]
  congr 1
  apply chunksOfAux_fuel k hk
  · simp only [List.length_drop, List.length_cons]
    omega
  · exact le_rfl

theorem chunksOf_eq_nil_iff {α : Type} (k : Nat) (l : List α) :
    chunksOf k l = [] ↔ l = [] := by
  constructor
  · intro h
    cases l with
    | nil => rfl
    | cons a t =>
      exact absurd h (List.cons_ne_nil _ _)
  · intro h
    rw [h]
    rfl

theorem chunksOf_length {α : Type} (k : Nat) (hk : 1 ≤ k) :
    ∀ (n : Nat) (l : List α), l.length ≤ n →
      (chunksOf k l).length = (l.length + k - 1) / k := by
  intro n
  induction n with
  | zero =>
    intro l h
    cases l with
    | nil =>
      show ([] : List (List α)).length = (0 + k - 1) / k
      rw [List.length_nil]
      symm
      apply Nat.div_eq_of_lt
      omega
    | cons a t => simp at h
  | succ n ih =>
    intro l h
    cases l with
    | nil =>
      show ([] : List (List α)).length = (0 + k - 1) / k
      rw [List.length_nil]
      symm
      apply Nat.div_eq_of_lt
      omega
    | cons a t =>
      rw [chunksOf_cons k hk, List.length_cons, List.length_cons]
      have hdl : ((a :: t).drop k).length ≤ n := by
        simp only [List.length_drop, List.length_cons]
        simp only [List.length_cons] at h
        omega
      rw [ih _ hdl]
      simp only [List.length_drop, List.length_cons]
      have e2 : t.length + 1 + k - 1 = t.length + k := by omega
      rw [e2, Nat.add_div_right _ (by omega : 0 < k)]
      rcases le_or_lt (t.length + 1) k with hle | hlt
      · have h0 : t.length + 1 - k = 0 := by omega
        rw [h0]
        have hz1 : (0 + k - 1) / k = 0 := Nat.div_eq_of_lt (by omega)
        have hz2 : t.length / k = 0 := Nat.div_eq_of_lt (by omega)
        rw [hz1, hz2]
      · have e1 : t.length + 1 - k + k - 1 = t.length := by omega
        rw [e1]

theorem chunksOf_flatten {α : Type} (k : Nat) (hk : 1 ≤ k) :
    ∀ (n : Nat) (l : List α), l.length ≤ n → (chunksOf k l).flatten = l := by
  intro n
  induction n with
  | zero =>
    intro l h
    cases l with
    | nil => rfl
    | cons a t => simp at h
  | succ n ih =>
    intro l h
    cases l with
    | nil => rfl
    | cons a t =>
      rw [chunksOf_cons k hk, List.flatten_cons]
      have hdl : ((a :: t).drop k).length ≤ n := by
        simp only [List.length_drop, List.length_cons]
        simp only [List.length_cons] at h
        omega
      rw [ih _ hdl]
      exact List.take_append_drop k (a :: t)

theorem chunksOf_mem {α : Type} (k : Nat) (hk : 1 ≤ k) :
    ∀ (n : Nat) (l : List α), l.length ≤ n →
      ∀ c ∈ chunksOf k l, c ≠ [] ∧ c.length ≤ k := by
  intro n
  induction n with
  | zero =>
    intro l h c hc
    cases l with
    | nil => cases hc
    | cons a t => simp at h
  | succ n ih =>
    intro l h c hc
    cases l with
    | nil => cases hc
    | cons a t =>
      rw [chunksOf_cons k hk] at hc
      rcases List.mem_cons.mp hc with hc | hc
      · subst hc
        constructor
        · apply List.length_pos.mp
          simp only [List.length_take, List.length_cons]
          omega
        · simp only [List.length_take, List.length_cons]
          omega
      · have hdl : ((a :: t).drop k).length ≤ n := by
          simp only [List.length_drop, List.length_cons]
          simp only [List.length_cons] at h
          omega
        exact ih _ hdl c hc

theorem chunksOf_dropLast {α : Type} (k : Nat) (hk : 1 ≤ k) :
    ∀ (n : Nat) (l : List α), l.length ≤ n →
      ∀ c ∈ (chunksOf k l).dropLast, c.length = k := by
  intro n
  induction n with
  | zero =>
    intro l h c hc
    cases l with
    | nil => cases hc
    | cons a t => simp at h
  | succ n ih =>
    intro l h c hc
    cases l with
    | nil => cases hc
    | cons a t =>
      rw [chunksOf_cons k hk] at hc
      by_cases hr : chunksOf k ((a :: t).drop k) = []
      · rw [hr] at hc
        cases hc
      · rcases List.exists_cons_of_ne_nil hr with ⟨x, xs, hx⟩
        rw [hx, List.dropLast_cons₂] at hc
        have hrest : (a :: t).drop k ≠ [] := by
          intro h0
          rw [h0] at hr
          exact hr rfl
        have hklt : k < t.length + 1 := by
          by_contra hcon
          exact hrest (List.drop_eq_nil_iff.mpr (by simp only [List.length_cons]; omega))
        rcases List.mem_cons.mp hc with hc | hc
        · subst hc
          simp only [List.length_take, List.length_cons]
          omega
        · have hdl : ((a :: t).drop k).length ≤ n := by
            simp only [List.length_drop, List.length_cons]
            simp only [List.length_cons] at h
            omega
          exact ih _ hdl c (by rw [hx]; exact hc)

theorem count_pause_blockEvents (complete : Nat → List Nat → List Nat) (b i len : Nat) :
    (blockEvents complete b i len).count Ev.pause = 0 := by
  rw [blockEvents, List.count_append]
  have h1 : ((List.range' i len).map Ev.dispatch).count Ev.pause = 0 := by
    rw [List.count_eq_zero]
    intro h
    rcases List.mem_map.mp h with ⟨x, _, hx⟩
    cases hx
  have h2 : ((complete b (List.range' i len)).map Ev.settle).count Ev.pause = 0 := by
    rw [List.count_eq_zero]
    intro h
    rcases List.mem_map.mp h with ⟨x, _, hx⟩
    cases hx
  rw [h1, h2]

theorem blocksTrace_count_pause (complete : Nat → List Nat → List Nat) :
    ∀ (cs : List (List String)) (b i : Nat),
      (blocksTrace complete b i cs).count Ev.pause = cs.length - 1 := by
  intro cs
  induction cs with
  | nil => intro b i; rfl
  | cons c cs ih =>
    intro b i
    cases cs with
    | nil =>
      show (blocksTrace complete b i [c]).count Ev.pause = 0
      rw [blocksTrace]
      exact count_pause_blockEvents complete b i c.length
    | cons c2 cs2 =>
      rw [blocksTrace, List.count_append, List.count_append,
        count_pause_blockEvents, ih (b + 1) (i + c.length)]
      simp only [List.count_cons_self, List.count_nil, List.length_cons]
      omega

theorem runBatchAux_snd (apiKey : Option String)
    (net : Nat → GenRequest → Except String ApiResult)
    (ref : String) (custom : Option String) (k : Nat)
    (complete : Nat → List Nat → List Nat) (hk : 1 ≤ k) :
    ∀ (fuel : Nat) (l : List String) (b i : Nat), l.length ≤ fuel →
      (runBatchAux apiKey net ref custom k complete b i fuel l).snd
        = blocksTrace complete b i (chunksOfAux k fuel l) := by
  intro fuel
  induction fuel with
  | zero =>
    intro l b i hl
    cases l with
    | nil => rfl
    | cons e t => simp at hl
  | succ fuel ih =>
    intro l b i hl
    cases l with
    | nil => rfl
    | cons e t =>
      simp only [runBatchAux, chunksOfAux]
      by_cases hr : (e :: t).drop k = []
      · rw [hr]
        have hcd : chunksOfAux k fuel ([] : List String) = [] := by
          cases fuel <;> rfl
        have htail : (runBatchAux apiKey net ref custom k complete (b + 1) (i + k) fuel
            ([] : List String)).snd = [] := by
          cases fuel <;> rfl
        rw [hcd, htail]
        simp [blocksTrace, blockEvents]
      · obtain ⟨x, xs, hx⟩ := List.exists_cons_of_ne_nil hr
        have hlen : ((e :: t).drop k).length ≤ fuel := by
          simp only [List.length_drop, List.length_cons]
          simp only [List.length_cons] at hl
          omega
        obtain ⟨c2, cs2, hcs⟩ : ∃ c2 cs2,
            chunksOfAux k fuel ((e :: t).drop k) = c2 :: cs2 := by
          cases fuel with
          | zero =>
            exfalso
            rw [hx] at hlen
            simp at hlen
          | succ fuel2 =>
            rw [hx]
            exact ⟨_, _, rfl⟩
        have hklt : k < t.length + 1 := by
          by_contra hcon
          exact hr (List.drop_eq_nil_iff.mpr (by simp only [List.length_cons]; omega))
        have htake : ((e :: t).take k).length = k := by
          simp only [List.length_take, List.length_cons]
          omega
        have hemp : ((e :: t).drop k).isEmpty = false := by
          rw [hx]
          rfl
        rw [ih ((e :: t).drop k) (b + 1) (i + k) hlen, hcs]
        simp only [blocksTrace, hemp, Bool.false_eq_true, if_neg, htake]
        simp [List.append_assoc, blockEvents]
  
theorem batchTrace_eq (apiKey : Option String)
    (net : Nat → GenRequest → Except String ApiResult)
    (complete : Nat → List Nat → List Nat)
    (ref : String) (expressions : List String) (k : Nat) (custom : Option String)
    (hk : 1 ≤ k) :
    batchTrace apiKey net complete ref expressions k custom
      = blocksTrace complete 0 0 (chunksOf k expressions) :=
  runBatchAux_snd apiKey net ref custom k complete hk expressions.length expressions 0 0 le_rfl

/-- C4: with n items and concurrency limit k ≥ 1, the loop partitions the
items into exactly ceil(n/k) consecutive chunks (the last possibly
smaller), the trace consists of the chunk blocks in order — every call of
a chunk settling before anything of the next chunk is dispatched — and a
single pause separates consecutive chunks, with no pause after the last
(the pause count is the chunk count minus one). -/
theorem chunking_and_pause_schedule (apiKey : Option String)
    (net : Nat → GenRequest → Except String ApiResult)
    (complete : Nat → List Nat → List Nat)
    (referenceImageData : String) (customPrompt : Option String)
    (expressions : List String) (concurrencyLimit : Nat) (hk : 1 ≤ concurrencyLimit) :
    (chunksOf concurrencyLimit expressions).length
        = (expressions.length + concurrencyLimit - 1) / concurrencyLimit ∧
    (chunksOf concurrencyLimit expressions).flatten = expressions ∧
    (∀ c ∈ (chunksOf concurrencyLimit expressions).dropLast, c.length = concurrencyLimit) ∧
    (∀ c ∈ chunksOf concurrencyLimit expressions, c ≠ [] ∧ c.length ≤ concurrencyLimit) ∧
    batchTrace apiKey net complete referenceImageData expressions concurrencyLimit customPrompt
        = blocksTrace complete 0 0 (chunksOf concurrencyLimit expressions) ∧
    (batchTrace apiKey net complete referenceImageData expressions concurrencyLimit
        customPrompt).count Ev.pause
      = (chunksOf concurrencyLimit expressions).length - 1 := by
  refine ⟨chunksOf_length concurrencyLimit hk expressions.length expressions le_rfl,
    chunksOf_flatten concurrencyLimit hk expressions.length expressions le_rfl,
    chunksOf_dropLast concurrencyLimit hk expressions.length expressions le_rfl,
    chunksOf_mem concurrencyLimit hk expressions.length expressions le_rfl,
    batchTrace_eq apiKey net complete referenceImageData expressions concurrencyLimit
      customPrompt hk, ?_⟩
  rw [batchTrace_eq apiKey net complete referenceImageData expressions concurrencyLimit
    customPrompt hk]
  exact blocksTrace_count_pause complete (chunksOf concurrencyLimit expressions) 0 0

theorem chunking_and_pause_schedule_witness :
    (chunksOf 2 ["a", "b", "c", "d", "e"]).length
        = ((["a", "b", "c", "d", "e"] : List String).length + 2 - 1) / 2 ∧
    (chunksOf 2 ["a", "b", "c", "d", "e"]).flatten = ["a", "b", "c", "d", "e"] ∧
    (∀ c ∈ (chunksOf 2 ["a", "b", "c", "d", "e"]).dropLast, c.length = 2) ∧
    (∀ c ∈ chunksOf 2 ["a", "b", "c", "d", "e"], c ≠ [] ∧ c.length ≤ 2) ∧
    batchTrace (some "key") (fun _ _ => Except.error "down") (fun _ idxs => idxs)
        "img" ["a", "b", "c", "d", "e"] 2 none
      = blocksTrace (fun _ idxs => idxs) 0 0 (chunksOf 2 ["a", "b", "c", "d", "e"]) ∧
    (batchTrace (some "key") (fun _ _ => Except.error "down") (fun _ idxs => idxs)
        "img" ["a", "b", "c", "d", "e"] 2 none).count Ev.pause
      = (chunksOf 2 ["a", "b", "c", "d", "e"]).length - 1 :=
  chunking_and_pause_schedule (some "key") (fun _ _ => Except.error "down")
    (fun _ idxs => idxs) "img" none ["a", "b", "c", "d", "e"] 2 (by decide)

/-! ### Loop termination (C10) -/

theorem loopIters_eq_chunks (k : Nat) (hk : 1 ≤ k) :
    ∀ (fuel : Nat) (l : List String), l.length ≤ fuel →
      loopIters k fuel l = some ((chunksOfAux k fuel l).length) := by
  intro fuel
  induction fuel with
  | zero =>
    intro l hl
    cases l with
    | nil => rfl
    | cons e t => simp at hl
  | succ fuel ih =>
    intro l hl
    cases l with
    | nil => rfl
    | cons e t =>
      simp only [loopIters, chunksOfAux]
      have hlen : ((e :: t).drop k).length ≤ fuel := by
        simp only [List.length_drop, List.length_cons]
        simp only [List.length_cons] at hl
        omega
      rw [ih ((e :: t).drop k) hlen]
      rfl

theorem loopIters_zero_diverges (l : List String) (hne : l ≠ []) :
    ∀ fuel : Nat, loopIters 0 fuel l = none := by
  intro fuel
  induction fuel with
  | zero =>
    cases l with
    | nil => exact absurd rfl hne
    | cons e t => rfl
  | succ fuel ih =>
    cases l with
    | nil => exact absurd rfl hne
    | cons e t =>
      simp only [loopIters, List.drop_zero]
      rw [ih]
      rfl

/-- C10: under the precondition that the concurrency limit is ≥ 1, the
chunked loop of `generateFacecastBatch` terminates on every finite input
(any fuel of at least the input length reaches the exit condition) after
exactly ceil(n/k) iterations — one per chunk; the precondition is
necessary: with a limit of 0 the index never advances and no amount of
fuel reaches the exit condition on a non-empty input. -/
theorem batch_loop_termination (k : Nat) (l : List String) :
    (1 ≤ k → ∀ fuel : Nat, l.length ≤ fuel →
      loopIters k fuel l = some ((l.length + k - 1) / k)) ∧
    (1 ≤ k → loopIters k l.length l = some ((chunksOf k l).length)) ∧
    (l ≠ [] → ∀ fuel : Nat, loopIters 0 fuel l = none) := by
  refine ⟨?_, ?_, ?_⟩
  · intro hk fuel hl
    rw [loopIters_eq_chunks k hk fuel l hl,
      chunksOfAux_eq_chunksOf k hk fuel l hl,
      chunksOf_length k hk l.length l le_rfl]
  · intro hk
    exact loopIters_eq_chunks k hk l.length l le_rfl
  · intro hne fuel
    exact loopIters_zero_diverges l hne fuel

theorem batch_loop_termination_witness :
    loopIters 2 5 ["a", "b", "c", "d", "e"] = some (((5 : Nat) + 2 - 1) / 2) ∧
    loopIters 0 7 ["a"] = none := by
  constructor
  · exact (batch_loop_termination 2 ["a", "b", "c", "d", "e"]).1 (by decide) 5 (by decide)
  · exact (batch_loop_termination 0 ["a"]).2.2 (by decide) 7

/-! ### Archive builder lemmas -/

theorem upsert_length_le (zip : List (String × List Nat)) (n : String) (b : List Nat) :
    zip.length ≤ (upsert zip n b).length := by
  induction zip with
  | nil => simp [upsert]
  | cons e t ih =>
    by_cases he : e.fst = n
    · simp [upsert, he]
    · simp only [upsert, if_neg he, List.length_cons]
      omega

theorem addEntries_length_le (atob : String → Option (List Nat)) :
    ∀ (l : List FacecastResult) (zip out : List (String × List Nat)),
      addEntries atob zip l = Except.ok out → zip.length ≤ out.length := by
  intro l
  induction l with
  | nil =>
    intro zip out h
    simp only [addEntries, Except.ok.injEq] at h
    rw [h]
  | cons r t ih =>
    intro zip out h
    simp only [addEntries] at h
    cases hd : decodePayload atob (r.imageData.getD "") with
    | none => rw [hd] at h; cases h
    | some bytes =>
      rw [hd] at h
      exact le_trans (upsert_length_le zip (zipFilename r.expression) bytes) (ih _ _ h)

theorem upsert_keys (zip : List (String × List Nat)) (n : String) (b : List Nat) :
    (upsert zip n b).map Prod.fst =
      if n ∈ zip.map Prod.fst then zip.map Prod.fst else zip.map Prod.fst ++ [n] := by
  induction zip with
  | nil => simp [upsert]
  | cons e t ih =>
    by_cases he : e.fst = n
    · simp [upsert, he]
    · simp only [upsert, if_neg he, List.map_cons, ih]
      have hmem : n ∈ e.fst :: t.map Prod.fst ↔ n ∈ t.map Prod.fst := by
        constructor
        · intro h
          rcases List.mem_cons.mp h with h | h
          · exact absurd h.symm he
          · exact h
        · exact fun h => List.mem_cons_of_mem _ h
      by_cases hn : n ∈ t.map Prod.fst
      · simp [hn, hmem]
      · simp [hn, hmem]

theorem upsert_keys_nodup (zip : List (String × List Nat)) (n : String) (b : List Nat)
    (h : (zip.map Prod.fst).Nodup) : ((upsert zip n b).map Prod.fst).Nodup := by
  rw [upsert_keys]
  by_cases hn : n ∈ zip.map Prod.fst
  · simpa [hn] using h
  · rw [if_neg hn]
    rw [List.nodup_append]
    exact ⟨h, List.nodup_singleton n, by simpa using hn⟩

theorem upsert_keys_toFinset (zip : List (String × List Nat)) (n : String) (b : List Nat) :
    ((upsert zip n b).map Prod.fst).toFinset = insert n (zip.map Prod.fst).toFinset := by
  rw [upsert_keys]
  by_cases hn : n ∈ zip.map Prod.fst
  · rw [if_pos hn]
    exact (Finset.insert_eq_self.mpr (List.mem_toFinset.mpr hn)).symm
  · rw [if_neg hn, List.toFinset_append]
    simp [Finset.union_comm, Finset.insert_eq]

theorem addEntries_keys_nodup (atob : String → Option (List Nat)) :
    ∀ (l : List FacecastResult) (zip out : List (String × List Nat)),
      addEntries atob zip l = Except.ok out →
      (zip.map Prod.fst).Nodup → (out.map Prod.fst).Nodup := by
  intro l
  induction l with
  | nil =>
    intro zip out h hnd
    simp only [addEntries, Except.ok.injEq] at h
    rw [← h]
    exact hnd
  | cons r t ih =>
    intro zip out h hnd
    simp only [addEntries] at h
    cases hd : decodePayload atob (r.imageData.getD "") with
    | none => rw [hd] at h; cases h
    | some bytes =>
      rw [hd] at h
      exact ih _ _ h (upsert_keys_nodup zip (zipFilename r.expression) bytes hnd)

theorem addEntries_keys_toFinset (atob : String → Option (List Nat)) :
    ∀ (l : List FacecastResult) (zip out : List (String × List Nat)),
      addEntries atob zip l = Except.ok out →
      (out.map Prod.fst).toFinset =
        (zip.map Prod.fst).toFinset ∪
          (l.map (fun r => zipFilename r.expression)).toFinset := by
  intro l
  induction l with
  | nil =>
    intro zip out h
    simp only [addEntries, Except.ok.injEq] at h
    rw [← h]
    simp
  | cons r t ih =>
    intro zip out h
    simp only [addEntries] at h
    cases hd : decodePayload atob (r.imageData.getD "") with
    | none => rw [hd] at h; cases h
    | some bytes =>
      rw [hd] at h
      rw [ih _ _ h, upsert_keys_toFinset]
      simp only [List.map_cons, List.toFinset_cons]
      rw [Finset.insert_union, Finset.union_insert]

/-- C5: `createAndDownloadZip` keeps only the results whose image payload
is present (truthy), throws the empty-archive error when none remain, and
never resolves with a zero-entry archive; on one failure and two
successes with distinct normalized labels it produces exactly those two
entries, named from the successful labels. -/
theorem zip_filters_and_never_empty (atob : String → Option (List Nat)) :
    (∀ results : List FacecastResult,
      results.filter (fun r => isTruthy r.imageData) = [] →
        createAndDownloadZip atob results = Except.error "No successful facecasts to zip") ∧
    (∀ (results : List FacecastResult) (entries : List (String × List Nat)),
      createAndDownloadZip atob results = Except.ok entries → entries ≠ []) ∧
    createAndDownloadZip (fun s => some (s.data.map Char.toNat))
        [{ expression := "Angry", imageData := none, error := some "boom" },
         { expression := "Happy Face", imageData := some "data:image/png;base64,AAA", error := none },
         { expression := "Sad!", imageData := some "data:image/png;base64,BBB", error := none }]
      = Except.ok [("facecast-happy-face.png", [65, 65, 65]),
                   ("facecast-sad.png", [66, 66, 66])] := by
  refine ⟨?_, ?_, by rfl⟩
  · intro results h
    simp [createAndDownloadZip, h]
  · intro results entries h
    simp only [createAndDownloadZip] at h
    cases hf : results.filter (fun r => isTruthy r.imageData) with
    | nil =>
      rw [hf] at h
      simp at h
    | cons r t =>
      rw [hf] at h
      simp only [List.isEmpty_cons, Bool.false_eq_true, if_neg] at h
      simp only [addEntries] at h
      cases hd : decodePayload atob (r.imageData.getD "") with
      | none => rw [hd] at h; cases h
      | some bytes =>
        rw [hd] at h
        have hlen := addEntries_length_le atob t _ _ h
        have : 1 ≤ entries.length := le_trans (by simp [upsert]) hlen
        intro hnil
        rw [hnil] at this
        simp at this

theorem zip_filters_and_never_empty_witness :
    createAndDownloadZip (fun s => some (s.data.map Char.toNat)) []
      = Except.error "No successful facecasts to zip" ∧
    ([("facecast-happy-face.png", [65, 65, 65]), ("facecast-sad.png", [66, 66, 66])] :
        List (String × List Nat)) ≠ [] :=
  ⟨(zip_filters_and_never_empty (fun s => some (s.data.map Char.toNat))).1 [] rfl,
   (zip_filters_and_never_empty (fun s => some (s.data.map Char.toNat))).2.1
     [{ expression := "Angry", imageData := none, error := some "boom" },
      { expression := "Happy Face", imageData := some "data:image/png;base64,AAA", error := none },
      { expression := "Sad!", imageData := some "data:image/png;base64,BBB", error := none }]
     [("facecast-happy-face.png", [65, 65, 65]), ("facecast-sad.png", [66, 66, 66])] (by rfl)⟩

/-- C9: duplicate normalized filenames are silently overwritten — on two
distinct successful labels normalizing to the same filename the archive
holds a single entry under that filename carrying the payload of the
later result in input order — and in general the number of archive
entries equals the number of distinct normalized filenames among the
successes. -/
theorem zip_entry_count_and_overwrite (atob : String → Option (List Nat)) :
    createAndDownloadZip (fun s => some (s.data.map Char.toNat))
        [{ expression := "Happy!", imageData := some "x,AA", error := none },
         { expression := "HAPPY", imageData := some "x,BB", error := none }]
      = Except.ok [("facecast-happy.png", [66, 66])] ∧
    (∀ (results : List FacecastResult) (entries : List (String × List Nat)),
      createAndDownloadZip atob results = Except.ok entries →
        entries.length = ((results.filter (fun r => isTruthy r.imageData)).map
          (fun r => zipFilename r.expression)).toFinset.card) := by
  refine ⟨by rfl, ?_⟩
  intro results entries h
  simp only [createAndDownloadZip] at h
  cases hf : (results.filter (fun r => isTruthy r.imageData)).isEmpty with
  | true =>
    rw [hf] at h
    simp at h
  | false =>
    rw [hf] at h
    simp only [Bool.false_eq_true, if_neg] at h
    have hnd : (entries.map Prod.fst).Nodup :=
      addEntries_keys_nodup atob _ _ _ h (by simp)
    have hfin := addEntries_keys_toFinset atob _ _ _ h
    simp only [List.map_nil, List.toFinset_nil, Finset.empty_union] at hfin
    calc entries.length
        = (entries.map Prod.fst).length := (List.length_map _ _).symm
      _ = (entries.map Prod.fst).toFinset.card := (List.toFinset_card_of_nodup hnd).symm
      _ = ((results.filter (fun r => isTruthy r.imageData)).map
            (fun r => zipFilename r.expression)).toFinset.card := by rw [hfin]

theorem zip_entry_count_and_overwrite_witness :
    createAndDownloadZip (fun s => some (s.data.map Char.toNat))
        [{ expression := "Happy!", imageData := some "x,AA", error := none },
         { expression := "HAPPY", imageData := some "x,BB", error := none }]
      = Except.ok [("facecast-happy.png", [66, 66])] ∧
    ([("facecast-a-b.png", [81])] : List (String × List Nat)).length
      = ((([{ expression := "A B", imageData := some "p,Q", error := none }] :
            List FacecastResult).filter (fun r => isTruthy r.imageData)).map
          (fun r => zipFilename r.expression)).toFinset.card :=
  ⟨(zip_entry_count_and_overwrite (fun s => some (s.data.map Char.toNat))).1,
   (zip_entry_count_and_overwrite (fun s => some (s.data.map Char.toNat))).2
     [{ expression := "A B", imageData := some "p,Q", error := none }]
     [("facecast-a-b.png", [81])] (by rfl)⟩

/-! ### Filename normalization lemmas -/

theorem char_toNat_ofNat (m : Nat) (h : m < 55296) : (Char.ofNat m).toNat = m := by
  have hv : m.isValidChar := Or.inl h
  simp [Char.ofNat, hv, Char.ofNatAux, Char.toNat, UInt32.toNat]

theorem jsToLower_class (c : Char) (hsafe : isSafeChar c = true)
    (hnsp : isJsSpace c = false) :
    (('a' ≤ jsToLower c ∧ jsToLower c ≤ 'z') ∨
      ('0' ≤ jsToLower c ∧ jsToLower c ≤ '9') ∨ jsToLower c = '-') := by
  simp only [isSafeChar, Bool.or_eq_true, decide_eq_true_eq, beq_iff_eq] at hsafe
  rcases hsafe with ((((h1 | h2) | h3) | h4) | h5)
  · have hlo : (97 : Nat) ≤ c.toNat := h1.1
    have hhi : c.toNat ≤ 122 := h1.2
    have : jsToLower c = c := by
      unfold jsToLower
      rw [if_neg (by omega)]
    rw [this]
    exact Or.inl h1
  · have hlo : (65 : Nat) ≤ c.toNat := h2.1
    have hhi : c.toNat ≤ 90 := h2.2
    have heq : jsToLower c = Char.ofNat (c.toNat + 32) := by
      unfold jsToLower
      rw [if_pos ⟨hlo, hhi⟩]
    have htn : (Char.ofNat (c.toNat + 32)).toNat = c.toNat + 32 :=
      char_toNat_ofNat (c.toNat + 32) (by omega)
    rw [heq]
    refine Or.inl ⟨?_, ?_⟩
    · show (97 : Nat) ≤ (Char.ofNat (c.toNat + 32)).toNat
      omega
    · show (Char.ofNat (c.toNat + 32)).toNat ≤ 122
      omega
  · have hlo : (48 : Nat) ≤ c.toNat := h3.1
    have hhi : c.toNat ≤ 57 := h3.2
    have : jsToLower c = c := by
      unfold jsToLower
      rw [if_neg (by omega)]
    rw [this]
    exact Or.inr (Or.inl h3)
  · rw [h4] at hnsp
    cases hnsp
  · subst h5
    exact Or.inr (Or.inr (by decide))

theorem mem_collapseWsAux {c : Char} :
    ∀ (b : Bool) (l : List Char), c ∈ collapseWsAux b l →
      c = '-' ∨ (c ∈ l ∧ isJsSpace c = false) := by
  intro b l
  induction l generalizing b with
  | nil => intro hc; cases hc
  | cons a t ih =>
    intro hc
    simp only [collapseWsAux] at hc
    cases haj : isJsSpace a with
    | true =>
      rw [haj] at hc
      simp only [if_pos] at hc
      cases b with
      | true =>
        simp only [if_pos] at hc
        rcases ih true hc with h | ⟨hm, hs⟩
        · exact Or.inl h
        · exact Or.inr ⟨List.mem_cons_of_mem a hm, hs⟩
      | false =>
        simp only [Bool.false_eq_true, if_neg] at hc
        rcases List.mem_cons.mp hc with h | h
        · exact Or.inl h
        · rcases ih true h with h2 | ⟨hm, hs⟩
          · exact Or.inl h2
          · exact Or.inr ⟨List.mem_cons_of_mem a hm, hs⟩
    | false =>
      rw [haj] at hc
      simp only [Bool.false_eq_true, if_neg] at hc
      rcases List.mem_cons.mp hc with h | h
      · refine Or.inr ⟨?_, ?_⟩
        · rw [h]
          exact List.mem_cons_self a t
        · rw [h]
          exact haj
      · rcases ih false h with h2 | ⟨hm, hs⟩
        · exact Or.inl h2
        · exact Or.inr ⟨List.mem_cons_of_mem a hm, hs⟩

/-- C6: the derived archive filename is `facecast-<normalized-label>.png`,
where the normalized label keeps only safe characters, collapses each
whitespace run to a single hyphen and lowercases: every character of a
normalized label is a lowercase ASCII letter, a digit, or a hyphen, and
the label "Surprised & Happy!" yields exactly
"facecast-surprised-happy.png". -/
theorem filename_normalization :
    zipFilename "Surprised & Happy!" = "facecast-surprised-happy.png" ∧
    (∀ e : String, zipFilename e = "facecast-" ++ safeExpression e ++ ".png") ∧
    (∀ e : String, ∀ c ∈ (safeExpression e).data,
      ('a' ≤ c ∧ c ≤ 'z') ∨ ('0' ≤ c ∧ c ≤ '9') ∨ c = '-') := by
  refine ⟨by decide, fun e => rfl, ?_⟩
  intro e c hc
  have hdata : (safeExpression e).data
      = (collapseWsAux false (e.data.filter isSafeChar)).map jsToLower := rfl
  rw [hdata] at hc
  rcases List.mem_map.mp hc with ⟨d, hd, rfl⟩
  rcases mem_collapseWsAux false _ hd with h | ⟨hm, hs⟩
  · subst h
    exact Or.inr (Or.inr (by decide))
  · have hsafe : isSafeChar d = true := (List.mem_filter.mp hm).2
    exact jsToLower_class d hsafe hs

theorem filename_normalization_witness :
    zipFilename "Surprised & Happy!" = "facecast-surprised-happy.png" ∧
    (('s' ≤ 's' ∧ 's' ≤ 'z') ∨ ('0' ≤ 's' ∧ 's' ≤ '9') ∨ 's' = '-') ∧
    (('a' ≤ 's' ∧ 's' ≤ 'z') ∨ ('0' ≤ 's' ∧ 's' ≤ '9') ∨ 's' = '-') :=
  ⟨filename_normalization.1,
   Or.inl ⟨le_rfl, by decide⟩,
   filename_normalization.2.2 "Surprised & Happy!" 's' (by decide)⟩

/-! ### Credential store (C7) and handoff (C8) -/

/-- C7: a newly registered observer is invoked exactly once, immediately,
with the current presence state (and is appended to the observer list);
each `setApiKey` call synchronously notifies exactly the registered
observers, once each, with the new presence state; an observer that was
de-registered receives no notification from a subsequent `setApiKey`. -/
theorem credential_listener_notifications (s : ServiceState) (key : String) (id : Nat) :
    ((addApiKeyListener s).snd.snd = [((addApiKeyListener s).snd.fst, hasApiKey s)]) ∧
    ((addApiKeyListener s).fst.listeners = s.listeners ++ [(addApiKeyListener s).snd.fst]) ∧
    ((setApiKey s key).snd
      = s.listeners.map (fun l => (l, hasApiKey (setApiKey s key).fst))) ∧
    (hasApiKey (setApiKey s key).fst = (key != "")) ∧
    (s.listeners.Nodup → id ∈ s.listeners →
      (setApiKey s key).snd.countP (fun p => p.fst == id) = 1) ∧
    ((setApiKey (removeApiKeyListener s id) key).snd.countP (fun p => p.fst == id) = 0) := by
  refine ⟨rfl, rfl, rfl, rfl, ?_, ?_⟩
  · intro hnd hmem
    show (s.listeners.map (fun l => (l, hasApiKey (setApiKey s key).fst))).countP
      (fun p => p.fst == id) = 1
    rw [List.countP_map]
    exact List.count_eq_one_of_mem hnd hmem
  · show ((s.listeners.filter (fun x => x != id)).map
      (fun l => (l, hasApiKey (setApiKey (removeApiKeyListener s id) key).fst))).countP
      (fun p => p.fst == id) = 0
    rw [List.countP_map]
    rw [List.countP_eq_zero]
    intro x hx
    have := (List.mem_filter.mp hx).2
    simp only [Function.comp_apply]
    simp only [bne_iff_ne, ne_eq] at this
    simp [this]

theorem credential_listener_notifications_witness :
    ((setApiKey { apiKey := some "k", listeners := [0, 1], nextId := 2 } "k2").snd.countP
      (fun p => p.fst == 1) = 1) ∧
    ((setApiKey (removeApiKeyListener
        { apiKey := some "k", listeners := [0, 1], nextId := 2 } 1) "k2").snd.countP
      (fun p => p.fst == 1) = 0) ∧
    (addApiKeyListener { apiKey := some "k", listeners := [0, 1], nextId := 2 }).snd.snd
      = [((addApiKeyListener { apiKey := some "k", listeners := [0, 1], nextId := 2 }).snd.fst,
          hasApiKey { apiKey := some "k", listeners := [0, 1], nextId := 2 })] :=
  ⟨(credential_listener_notifications
      { apiKey := some "k", listeners := [0, 1], nextId := 2 } "k2" 1).2.2.2.2.1
      (by decide) (by decide),
   (credential_listener_notifications
      { apiKey := some "k", listeners := [0, 1], nextId := 2 } "k2" 1).2.2.2.2.2,
   (credential_listener_notifications
      { apiKey := some "k", listeners := [0, 1], nextId := 2 } "k2" 1).1⟩

/-- C8: the launch step never rejects: when encoding and navigation both
succeed it navigates to the custom-scheme URL, and when either throws the
failure is caught and only the fallback message (naming the external tool
and the manual steps) is surfaced — the step always resolves. -/
theorem launch_never_raises (enc : String → Except String String)
    (nav : String → Except String Unit) (zipPath : String) :
    (∃ o : LaunchOutcome, launchGlowficApp enc nav zipPath = Except.ok o) ∧
    (∀ ep : String, enc zipPath = Except.ok ep → nav (launchUrlOf ep) = Except.ok () →
      launchGlowficApp enc nav zipPath
        = Except.ok (LaunchOutcome.navigated (launchUrlOf ep))) ∧
    (∀ msg : String, enc zipPath = Except.error msg →
      launchGlowficApp enc nav zipPath
        = Except.ok (LaunchOutcome.fallback (fallbackMessage zipPath))) ∧
    (∀ ep msg : String, enc zipPath = Except.ok ep →
      nav (launchUrlOf ep) = Except.error msg →
      launchGlowficApp enc nav zipPath
        = Except.ok (LaunchOutcome.fallback (fallbackMessage zipPath))) := by
  refine ⟨?_, ?_, ?_, ?_⟩
  · cases he : enc zipPath with
    | error m =>
      exact ⟨LaunchOutcome.fallback (fallbackMessage zipPath), by simp [launchGlowficApp, he]⟩
    | ok ep =>
      cases hn : nav (launchUrlOf ep) with
      | error m =>
        exact ⟨LaunchOutcome.fallback (fallbackMessage zipPath),
          by simp [launchGlowficApp, he, hn]⟩
      | ok u =>
        exact ⟨LaunchOutcome.navigated (launchUrlOf ep), by simp [launchGlowficApp, he, hn]⟩
  · intro ep he hn
    simp [launchGlowficApp, he, hn]
  · intro msg he
    simp [launchGlowficApp, he]
  · intro ep msg he hn
    simp [launchGlowficApp, he, hn]

theorem launch_never_raises_witness :
    (∃ o : LaunchOutcome,
      launchGlowficApp (fun p => Except.ok p) (fun _ => Except.error "no handler") "/d/f.zip"
        = Except.ok o) ∧
    launchGlowficApp (fun p => Except.ok p) (fun _ => Except.error "no handler") "/d/f.zip"
      = Except.ok (LaunchOutcome.fallback (fallbackMessage "/d/f.zip")) :=
  ⟨(launch_never_raises (fun p => Except.ok p) (fun _ => Except.error "no handler")
      "/d/f.zip").1,
   (launch_never_raises (fun p => Except.ok p) (fun _ => Except.error "no handler")
      "/d/f.zip").2.2.2 "/d/f.zip" "no handler" rfl rfl⟩
